import Mathlib

/-!
Verification of the Kunda-Zip archiver (src/src/c/kunda_zip.c).

This file embeds, in Lean, the parts of the C program that the claims are
about:

* the big-endian integer codec (`write_uint16_be`, `write_uint32_be`,
  `read_uint16_be`, `read_uint32_be`, C lines 415-434);
* the container serializer inside `create_archive` (Phase 3, lines 545-586);
* the container parser inside `extract_archive` (lines 770-855), including
  the path-token expansion (lines 806-817) and the duplicate-record handling
  (lines 822-825);
* the archive-file header writer (lines 633-648) and header parser
  (lines 710-733);
* the path-prefix analysis `compress_paths` (lines 239-299);
* the dictionary-size computation `get_optimal_dict_size` (lines 302-325)
  and the preset-resolution logic of `compress_lzma_ultra` (lines 328-379).

Bytes are modelled as natural numbers (the C code only ever produces values
below 256; the writers apply the same `& 0xFF` masks as the C code), and
byte buffers as `List Nat`.  The C parser performs no bounds checking at
all; the embedding makes every memory access explicit, and an access the C
code would perform outside the bounds of a buffer is reported as the
distinguished outcome `CErr.oob_read` (respectively `CErr.oob_write` for a
store into the fixed 4096-byte `path` buffer).  These outcomes mark
undefined behaviour of the C program, not error values the C program
returns: `extract_archive` has no `CorruptArchive` code path whatsoever.
-/

/-- Byte buffers.  Each element models one `uint8_t` of the C program. -/
abbrev Bytes := List Nat

/-- MAX_PATH_LEN from the C source (line 24). -/
def MAX_PATH_LEN : Nat := 4096

/-- MAX_PREFIXES from the C source (line 26). -/
def MAX_PREFIXES : Nat := 1000

/-- The 8-byte magic signature KUNDA_MAGIC, "KUNDA\x00\x00\x00" (line 12). -/
def KUNDA_MAGIC : Bytes := [75, 85, 78, 68, 65, 0, 0, 0]

/-- write_uint16_be (lines 415-418): buf[0] = (val >> 8) & 0xFF;
buf[1] = val & 0xFF.  On a `uint16_t` argument the masks are exactly
`v / 256 % 256` and `v % 256`; the same expressions also model the implicit
truncation a wider C value undergoes when converted to `uint16_t`. -/
def write_uint16_be (val : Nat) : Bytes :=
  [val / 256 % 256, val % 256]

/-- write_uint32_be (lines 420-425), with the four `& 0xFF` masks. -/
def write_uint32_be (val : Nat) : Bytes :=
  [val / 16777216 % 256, val / 65536 % 256, val / 256 % 256, val % 256]

/-- read_uint16_be (lines 427-429): (buf[0] << 8) | buf[1].  The C code
assumes two bytes are present; out-of-range accesses are modelled as 0 here
(the callers in this file check buffer length before calling). -/
def read_uint16_be (buf : Bytes) : Nat :=
  buf.getD 0 0 * 256 + buf.getD 1 0

/-- read_uint32_be (lines 431-434). -/
def read_uint32_be (buf : Bytes) : Nat :=
  buf.getD 0 0 * 16777216 + buf.getD 1 0 * 65536 + buf.getD 2 0 * 256 + buf.getD 3 0

/-- One FileEntry of the archive (struct at lines 35-42).  The `type` field
of the C struct is used only for human-readable statistics reporting and is
not consulted by the container codec, so it is omitted.  `content` is the
member's raw bytes; `duplicate_of` the referenced path of a duplicate. -/
structure FileEntry where
  path : Bytes
  content : Bytes
  is_duplicate : Bool
  duplicate_of : Bytes
deriving DecidableEq

/-- Serialization of one entry of the path-prefix table (lines 551-557):
a big-endian u16 length followed by the raw bytes.  `strlen` is modelled by
`List.length` (paths and table entries are NUL-free C strings). -/
def encode_prefix_entry (p : Bytes) : Bytes :=
  write_uint16_be p.length ++ p

/-- Serialization of one file record (lines 563-586): u16 path length, path
bytes, then either the 0xFFFFFFFF duplicate marker with the u16-prefixed
referenced path, or the u32 content length with the content bytes.  Note
that the C code performs no width check anywhere in this phase: every
length is silently truncated by the `& 0xFF` masks of the integer writers,
and the function is total - there is no EncodeOverflow code path. -/
def encode_file_entry (f : FileEntry) : Bytes :=
  write_uint16_be f.path.length ++ f.path ++
    (if f.is_duplicate then
      write_uint32_be 4294967295 ++
        write_uint16_be f.duplicate_of.length ++ f.duplicate_of
    else
      write_uint32_be f.content.length ++ f.content)

/-- The whole container payload built by Phase 3 of `create_archive`
(lines 545-586): u16 prefix count, the prefix entries, u32 file count, the
file records.  The C code writes these bytes sequentially into one buffer;
the embedding concatenates the same byte sequence. -/
def encode_container (ps : List Bytes) (files : List FileEntry) : Bytes :=
  write_uint16_be ps.length ++
  (ps.map encode_prefix_entry).flatten ++
  write_uint32_be files.length ++
  (files.map encode_file_entry).flatten

/-- Outcomes of a memory access performed by the extraction code.
`oob_read` / `oob_write` mark accesses the C code performs outside the
bounds of the decompressed buffer respectively of the fixed `char
path[MAX_PATH_LEN]` buffer - undefined behaviour, not a returned error.
`invalid_archive` is the single checked error of `extract_archive`: the
magic-signature mismatch at line 712. -/
inductive CErr where
  | oob_read
  | oob_write
  | invalid_archive
deriving DecidableEq

/-- Reading a big-endian u16 at the cursor (the cursor is modelled by the
remaining suffix of the buffer).  Fewer than 2 remaining bytes means the C
code reads past the end of the buffer. -/
def readU16 (l : Bytes) : Except CErr (Nat × Bytes) :=
  match l with
  | b0 :: b1 :: rest => .ok (b0 * 256 + b1, rest)
  | _ => .error .oob_read

/-- Reading a big-endian u32 at the cursor. -/
def readU32 (l : Bytes) : Except CErr (Nat × Bytes) :=
  match l with
  | b0 :: b1 :: b2 :: b3 :: rest =>
      .ok (b0 * 16777216 + b1 * 65536 + b2 * 256 + b3, rest)
  | _ => .error .oob_read

/-- Reading one byte at the cursor (`archive_data[offset++]`). -/
def readU8 (l : Bytes) : Except CErr (Nat × Bytes) :=
  match l with
  | b :: rest => .ok (b, rest)
  | _ => .error .oob_read

/-- Reading `n` raw bytes at the cursor (a `memcpy`/`fwrite` source range of
length `n`); fewer than `n` remaining bytes is a read past the end. -/
def readBytesN (n : Nat) (l : Bytes) : Except CErr (Bytes × Bytes) :=
  if n ≤ l.length then .ok (l.take n, l.drop n) else .error .oob_read

/-- Parsing the prefix table (lines 777-785): for each of the `n` entries a
u16 length followed by that many raw bytes. -/
def parse_prefix_table (n : Nat) (l : Bytes) :
    Except CErr (List Bytes × Bytes) :=
  match n with
  | 0 => .ok ([], l)
  | k + 1 =>
    match readU16 l with
    | .error e => .error e
    | .ok (len, l1) =>
      match readBytesN len l1 with
      | .error e => .error e
      | .ok (p, l2) =>
        match parse_prefix_table k l2 with
        | .error e => .error e
        | .ok (ps, l3) => .ok (p :: ps, l3)

/-- Skipping the leading whitespace of `atoi` (isspace accepts space and the
control characters 9-13). -/
def skip_spaces : Bytes → Bytes
  | [] => []
  | c :: cs => if c = 32 ∨ (9 ≤ c ∧ c ≤ 13) then skip_spaces cs else c :: cs

/-- The digit-accumulation loop of `atoi`: consume decimal digits, stop at
the first non-digit. -/
def atoi_digits : Bytes → Nat → Nat
  | [], acc => acc
  | c :: cs, acc =>
    if 48 ≤ c ∧ c ≤ 57 then atoi_digits cs (acc * 10 + (c - 48)) else acc

/-- The C library `atoi` on a NUL-free byte string: skip whitespace, accept
an optional sign, accumulate decimal digits.  (C `int` overflow, which is
undefined behaviour, is not modelled; the archive paths this is applied to
carry small indices.) -/
def atoi (s : Bytes) : Int :=
  match skip_spaces s with
  | 43 :: r => (atoi_digits r 0 : Int)
  | 45 :: r => -(atoi_digits r 0 : Int)
  | r => (atoi_digits r 0 : Int)

/-- The suffix of a byte string after its first occurrence of byte `b`, or
`none` when `b` does not occur - this models `strchr(s, b)` returning
`end`, with the suffix standing for `end + 1`. -/
def after_first (b : Nat) : Bytes → Option Bytes
  | [] => none
  | c :: cs => if c = b then some cs else after_first b cs

/-- Path-token expansion (lines 806-817).  A stored path starting with '$'
(byte 36) whose remainder contains another '$' is a reference token: the C
code computes `prefix_idx = atoi(path + 1)` and immediately dereferences
`prefixes[prefix_idx]` WITHOUT any range check, so an index outside the
decoded prefix table (including a negative one) is an out-of-bounds access.
In range, `snprintf(expanded_path, MAX_PATH_LEN, "%s%s", ...)` concatenates
the table entry and the suffix after the second '$', truncated to 4095
bytes.  Every other stored path is used verbatim (`strcpy`). -/
def expand_stored_path (ps : List Bytes) (path : Bytes) : Except CErr Bytes :=
  match path with
  | [] => .ok []
  | c :: rest =>
    if c = 36 then
      match after_first 36 rest with
      | some suffix =>
        let idx := atoi rest
        if idx < 0 then .error .oob_read
        else if h : idx.toNat < ps.length then
          .ok ((ps.get ⟨idx.toNat, h⟩ ++ suffix).take 4095)
        else .error .oob_read
      | none => .ok (c :: rest)
    else .ok (c :: rest)

/-- What the parsing loop of `extract_archive` recovers for one record:
either the literal content bytes of a regular member, or the referenced
path of a duplicate record. -/
inductive RecData where
  | content (bs : Bytes)
  | dupRef (ref : Bytes)
deriving DecidableEq

/-- One parsed record: the (expanded) path together with its data. -/
structure DecRecord where
  path : Bytes
  data : RecData
deriving DecidableEq

/-- Parsing one file record (lines 796-855).  The C code reads the u16 path
length, then `memcpy`s that many bytes into the fixed `char
path[MAX_PATH_LEN]` buffer and NUL-terminates at index `path_len` - for
`path_len ≥ 4096` that store overflows the buffer (`oob_write`).  After
path expansion it reads the u32 content length; the sentinel 0xFFFFFFFF
marks a duplicate record, for which the code reads the u16 referenced-path
length and merely advances the cursor past the referenced path ("skip for
now" - the bytes are never copied and no file is materialized); any other
length is consumed as that many content bytes (`fwrite` from the buffer). -/
def parse_record (ps : List Bytes) (l : Bytes) :
    Except CErr (DecRecord × Bytes) :=
  match readU16 l with
  | .error e => .error e
  | .ok (path_len, l1) =>
    match readBytesN path_len l1 with
    | .error e => .error e
    | .ok (path, l2) =>
      if 4096 ≤ path_len then .error .oob_write
      else
        match expand_stored_path ps path with
        | .error e => .error e
        | .ok expanded =>
          match readU32 l2 with
          | .error e => .error e
          | .ok (content_len, l3) =>
            if content_len = 4294967295 then
              match readU16 l3 with
              | .error e => .error e
              | .ok (dup_len, l4) =>
                .ok (⟨expanded, .dupRef (l4.take dup_len)⟩, l4.drop dup_len)
            else
              match readBytesN content_len l3 with
              | .error e => .error e
              | .ok (content, l4) => .ok (⟨expanded, .content content⟩, l4)

/-- The record loop (lines 796-855), iterated `n` times. -/
def parse_records (ps : List Bytes) : Nat → Bytes →
    Except CErr (List DecRecord × Bytes)
  | 0, l => .ok ([], l)
  | n + 1, l =>
    match parse_record ps l with
    | .error e => .error e
    | .ok (r, l1) =>
      match parse_records ps n l1 with
      | .error e => .error e
      | .ok (rs, l2) => .ok (r :: rs, l2)

/-- The whole container parser of `extract_archive` (lines 770-855): u16
prefix count, the prefix table, u32 file count, the records.  Trailing
bytes after the last record are ignored, exactly as in the C code. -/
def decode_container (l : Bytes) :
    Except CErr (List Bytes × List DecRecord) :=
  match readU16 l with
  | .error e => .error e
  | .ok (num, l1) =>
    match parse_prefix_table num l1 with
    | .error e => .error e
    | .ok (ps, l2) =>
      match readU32 l2 with
      | .error e => .error e
      | .ok (nf, l3) =>
        match parse_records ps nf l3 with
        | .error e => .error e
        | .ok (rs, _) => .ok (ps, rs)

/-- The files `extract_archive` actually writes to disk: one per regular
record (duplicate records are skipped without materializing anything). -/
def materialized_files (l : Bytes) : Except CErr (List (Bytes × Bytes)) :=
  match decode_container l with
  | .error e => .error e
  | .ok (_, rs) =>
    .ok (rs.filterMap fun r =>
      match r.data with
      | .content bs => some (r.path, bs)
      | .dupRef _ => none)

/-- The record a faithful decoding of `encode_file_entry f` recovers:
the same path, and either the content bytes or the referenced path. -/
def to_decoded (f : FileEntry) : DecRecord :=
  { path := f.path
    data := if f.is_duplicate then .dupRef f.duplicate_of
            else .content f.content }

/-- The archive file written by `create_archive` (lines 610-648): the 8-byte
magic, version 2, method tag 3 (COMP_LZMA_ULTRA), the flags byte, the u32
original and compressed sizes, the 32-byte SHA-256 digest when checksumming
was requested, then the compressed payload.  The flags are
FLAG_PATH_COMPRESSED (4, set unconditionally) plus FLAG_CHECKSUMMED (2)
when a digest is written. -/
def mk_archive_file (checksum : Bool) (sha_digest : Bytes)
    (orig_size comp_size : Nat) (payload : Bytes) : Bytes :=
  KUNDA_MAGIC ++ [2, 3, if checksum then 6 else 4] ++
  write_uint32_be orig_size ++ write_uint32_be comp_size ++
  (if checksum then sha_digest else []) ++ payload

/-- The header parsing of `extract_archive` (lines 710-733): compare the
first 8 bytes with the magic (the only checked error of the whole
function), skip the version and method bytes, read the flags byte and the
two u32 sizes, and - when FLAG_CHECKSUMMED is set - step over the stored
32-byte digest with `offset += 32`.  The digest bytes are never read,
recomputed or compared; there is no IntegrityMismatch code path.  The
result is the flags, the two sizes and the compressed payload handed to the
decompressor (`next_in = archive_data + offset`, `avail_in =
compressed_size`). -/
def parse_archive_header (buf : Bytes) :
    Except CErr (Nat × Nat × Nat × Bytes) :=
  if buf.take 8 = KUNDA_MAGIC then
    match readU8 (buf.drop 10) with
    | .error e => .error e
    | .ok (flags, l1) =>
      match readU32 l1 with
      | .error e => .error e
      | .ok (orig_size, l2) =>
        match readU32 l2 with
        | .error e => .error e
        | .ok (comp_size, l3) =>
          let l4 := if flags &&& 2 ≠ 0 then l3.drop 32 else l3
          .ok (flags, orig_size, comp_size, l4.take comp_size)
  else .error .invalid_archive

/-- One PathPrefix table entry (struct at lines 44-47).  The C field name
`prefix` is a reserved word in Lean, so the string field is called `pfx`. -/
structure PrefixEntry where
  pfx : Bytes
  count : Nat
deriving DecidableEq

/-- All proper directory prefixes of a path, in left-to-right order of their
terminating '/' (byte 47), as enumerated by the `strchr` loop at lines
248-272: for each slash the prefix consists of the bytes up to and
including that slash. -/
def dir_prefixes (p : Bytes) : List Bytes :=
  (List.range p.length).filterMap fun i =>
    if p.getD i 0 = 47 then some (p.take (i + 1)) else none

/-- The linear search-and-increment of lines 254-264: bump the count of the
first (by construction: only) entry holding this exact string, or report
that no entry holds it. -/
def incr_first (pfx : Bytes) : List PrefixEntry → Option (List PrefixEntry)
  | [] => none
  | e :: es =>
    if e.pfx = pfx then some ({ e with count := e.count + 1 } :: es)
    else (incr_first pfx es).map (e :: ·)

/-- Recording one prefix occurrence (lines 254-269): increment an existing
entry, else append a fresh entry with count 1 - but only while the table
holds fewer than MAX_PREFIXES entries; at capacity a new distinct prefix is
silently dropped. -/
def add_prefix_entry (tbl : List PrefixEntry) (pfx : Bytes) :
    List PrefixEntry :=
  match incr_first pfx tbl with
  | some tbl2 => tbl2
  | none => if tbl.length < MAX_PREFIXES then tbl ++ [⟨pfx, 1⟩] else tbl

/-- The counting phase of `compress_paths` (lines 243-273): fold every
directory prefix of every path into the table. -/
def count_path_prefixes (paths : List Bytes) : List PrefixEntry :=
  paths.foldl (fun tbl p => (dir_prefixes p).foldl add_prefix_entry tbl) []

/-- The inner loop of the selection sort at lines 288-296, for one value of
`i`: scan positions `i+1 ..` keeping the running occupant of slot `i`
(`cur`), swapping whenever a strictly longer prefix is found.  Returns the
final occupant of slot `i` and the resulting tail. -/
def sel_pass (cur : PrefixEntry) : List PrefixEntry →
    PrefixEntry × List PrefixEntry
  | [] => (cur, [])
  | x :: xs =>
    if cur.pfx.length < x.pfx.length then
      ((sel_pass x xs).1, cur :: (sel_pass x xs).2)
    else
      ((sel_pass cur xs).1, x :: (sel_pass cur xs).2)

theorem sel_pass_snd_length (cur : PrefixEntry) (l : List PrefixEntry) :
    (sel_pass cur l).2.length = l.length := by
  induction l generalizing cur with
  | nil => rfl
  | cons x xs ih =>
    simp only [sel_pass]
    split <;> simp [ih]

/-- The full selection sort of lines 288-296: longest prefix first;
equal-length entries are not reordered relative to the selected maxima. -/
def sel_sort : List PrefixEntry → List PrefixEntry
  | [] => []
  | x :: xs => (sel_pass x xs).1 :: sel_sort (sel_pass x xs).2
termination_by l => l.length
decreasing_by simp [sel_pass_snd_length]

/-- compress_paths (lines 239-299) as a function from the archive's path
list to the prefix table it leaves in the archive: nothing is done for
fewer than two files (the table stays empty); otherwise count all directory
prefixes, keep the entries used at least 3 times (line 278), and
selection-sort by descending byte length. -/
def compress_paths (paths : List Bytes) : List PrefixEntry :=
  if paths.length ≤ 1 then []
  else sel_sort ((count_path_prefixes paths).filter fun e => 3 ≤ e.count)

/-- The power-of-two rounding loop of `get_optimal_dict_size` (lines
307-314): double `rounded` until it reaches `dict`.  The C loop never
terminates when entered with `rounded = 0`; it is only ever entered with
`rounded = 1`, and the 0 branch here is unreachable from that call. -/
def round_loop (dict rounded : Nat) : Nat :=
  if h1 : rounded < dict then
    if h2 : rounded = 0 then 0
    else round_loop dict (rounded * 2)
  else rounded
termination_by dict - rounded
decreasing_by omega

/-- get_optimal_dict_size (lines 302-325): start from the fixed value
256 MiB, round to a power of two (rounding down when the loop overshot),
then clamp to [64 MiB, 1536 MiB]. -/
def get_optimal_dict_size : Nat :=
  let dict_size := 268435456
  let rounded := round_loop dict_size 1
  let rounded2 := if dict_size < rounded then rounded / 2 else rounded
  let clamped_lo := if rounded2 < 67108864 then 67108864 else rounded2
  if 1610612736 < clamped_lo then 1610612736 else clamped_lo

/-- The byte string "ultra". -/
def ultraBytes : Bytes := [117, 108, 116, 114, 97]

/-- The byte string "ultra-". -/
def ultraDashBytes : Bytes := [117, 108, 116, 114, 97, 45]

/-- The byte string "max". -/
def maxBytes : Bytes := [109, 97, 120]

/-- The byte string "balanced". -/
def balancedBytes : Bytes := [98, 97, 108, 97, 110, 99, 101, 100]

/-- The LZMA2 filter options `compress_lzma_ultra` fills in explicitly
(lines 363-368): dictionary size, literal-context bits, literal-position
bits, position bits, search depth and match finder (LZMA_MF_BT4 = 0x14). -/
structure LzmaOptions where
  dict_size : Nat
  lc : Nat
  lp : Nat
  pb : Nat
  depth : Nat
  mf : Nat
deriving DecidableEq

/-- Which libzma encoder-initialization call is made (lines 374-379).
`stream_encoder` is the custom filter-chain entry point and receives the
explicit option block; `easy_encoder` receives only `preset_level |
LZMA_PRESET_EXTREME` and therefore structurally ignores every explicit
override.  The second argument is the integrity check (LZMA_CHECK_CRC64 =
4). -/
inductive EncoderCall where
  | stream_encoder (opts : LzmaOptions) (check : Nat)
  | easy_encoder (preset_flags : Nat) (check : Nat)
deriving DecidableEq

/-- The preset resolution computed by `compress_lzma_ultra`. -/
structure PresetChoice where
  preset_level : Nat
  dict_size : Nat
  call : EncoderCall
deriving DecidableEq

/-- Does the resolved preset use the custom filter-chain encoder? -/
def uses_stream_encoder (c : PresetChoice) : Bool :=
  match c.call with
  | .stream_encoder _ _ => true
  | .easy_encoder _ _ => false

/-- The preset-resolution logic of `compress_lzma_ultra` (lines 328-379).
The level/dictionary decision chain (lines 336-352) tests, in order, string
equality with "ultra", the 6-byte `strncmp` with "ultra-", equality with
"max" and with "balanced", with defaults level 9 / 256 MiB and the final
else branch giving level 3 / 64 MiB.  For "ultra-<N>" the dictionary is
`atoi(preset + 6)` MiB converted to `uint32_t` (C `int` overflow in the
multiplication is undefined and not modelled beyond the final truncation).
The encoder choice (lines 375-379) tests only `strncmp(preset, "ultra",
5)`: ANY preset string whose first five bytes are "ultra" gets
`lzma_stream_encoder` with the explicit option block, everything else gets
`lzma_easy_encoder` with just `preset_level | LZMA_PRESET_EXTREME`
(2^31). -/
def resolve_preset (preset : Bytes) : PresetChoice :=
  let preset_level :=
    if preset = ultraBytes then 9
    else if preset.take 6 = ultraDashBytes then 9
    else if preset = maxBytes then 9
    else if preset = balancedBytes then 6
    else 3
  let dict_size :=
    if preset = ultraBytes then get_optimal_dict_size
    else if preset.take 6 = ultraDashBytes then
      ((atoi (preset.drop 6) * 1048576) % 4294967296).toNat
    else if preset = maxBytes then 268435456
    else if preset = balancedBytes then 134217728
    else 67108864
  let opt : LzmaOptions :=
    { dict_size := dict_size, lc := 3, lp := 0, pb := 2, depth := 273,
      mf := 20 }
  let call :=
    if preset.take 5 = ultraBytes then EncoderCall.stream_encoder opt 4
    else EncoderCall.easy_encoder (preset_level ||| 2147483648) 4
  { preset_level := preset_level, dict_size := dict_size, call := call }

/-- Propositional equality on `Except` results is decidable; this lets the
concrete evaluations below go through `decide`. -/
instance except_deceq {ε α : Type} [DecidableEq ε] [DecidableEq α] :
    DecidableEq (Except ε α) := fun a b =>
  match a, b with
  | .error e, .error f =>
    match decEq e f with
    | .isTrue h => .isTrue (by rw [h])
    | .isFalse h => .isFalse fun hh => h (by injection hh)
  | .error _, .ok _ => .isFalse fun hh => by injection hh
  | .ok _, .error _ => .isFalse fun hh => by injection hh
  | .ok x, .ok y =>
    match decEq x y with
    | .isTrue h => .isTrue (by rw [h])
    | .isFalse h => .isFalse fun hh => h (by injection hh)

theorem take_append_exact (xs rest : Bytes) :
    (xs ++ rest).take xs.length = xs := by
  induction xs with
  | nil => simp
  | cons x xs ih => simp [ih]

theorem drop_append_exact (xs rest : Bytes) :
    (xs ++ rest).drop xs.length = rest := by
  induction xs with
  | nil => simp
  | cons x xs ih => simp [ih]

/-- C10: the big-endian integer codec round-trips: reading back a 2-byte
buffer written by `write_uint16_be v` yields `v` for every 16-bit value,
and reading back a 4-byte buffer written by `write_uint32_be v` yields `v`
for every 32-bit value. -/
theorem be_codec_roundtrip :
    (∀ v : Nat, v < 65536 → read_uint16_be (write_uint16_be v) = v) ∧
    (∀ v : Nat, v < 4294967296 → read_uint32_be (write_uint32_be v) = v) := by
  constructor
  · intro v h
    simp only [write_uint16_be, read_uint16_be, List.getD]
    simp only [List.get?_cons_zero, List.get?_cons_succ, Option.getD_some]
    omega
  · intro v h
    simp only [write_uint32_be, read_uint32_be, List.getD]
    simp only [List.get?_cons_zero, List.get?_cons_succ, Option.getD_some]
    omega

/-- Witness for C10 at concrete 16- and 32-bit values. -/
theorem be_codec_roundtrip_witness :
    read_uint16_be (write_uint16_be 65535) = 65535 ∧
    read_uint32_be (write_uint32_be 4294967295) = 4294967295 :=
  ⟨be_codec_roundtrip.1 65535 (by decide),
   be_codec_roundtrip.2 4294967295 (by decide)⟩

/-- C9: `get_optimal_dict_size` always returns exactly 256 MiB: the fixed
256 MiB starting value is rounded to the nearest power of two (a no-op, as
256 MiB already is one) and the clamp to [64 MiB, 1536 MiB] leaves it
unchanged. -/
theorem get_optimal_dict_size_eq : get_optimal_dict_size = 268435456 := by
  have h : round_loop 268435456 1 = 268435456 := by
    simp [round_loop]
  simp [get_optimal_dict_size, h]

theorem readU16_write (n : Nat) (rest : Bytes) (h : n ≤ 65535) :
    readU16 (write_uint16_be n ++ rest) = .ok (n, rest) := by
  simp only [write_uint16_be, List.cons_append, List.nil_append, readU16]
  have hn : n / 256 % 256 * 256 + n % 256 = n := by omega
  rw [hn]

theorem readU32_write (n : Nat) (rest : Bytes) (h : n ≤ 4294967295) :
    readU32 (write_uint32_be n ++ rest) = .ok (n, rest) := by
  simp only [write_uint32_be, List.cons_append, List.nil_append, readU32]
  have hn : n / 16777216 % 256 * 16777216 + n / 65536 % 256 * 65536 +
      n / 256 % 256 * 256 + n % 256 = n := by omega
  rw [hn]

theorem readBytesN_exact (xs rest : Bytes) :
    readBytesN xs.length (xs ++ rest) = .ok (xs, rest) := by
  simp [readBytesN, take_append_exact, drop_append_exact]

theorem expand_verbatim (ps : List Bytes) (p : Bytes)
    (h : p.head? ≠ some 36) : expand_stored_path ps p = .ok p := by
  cases p with
  | nil => rfl
  | cons c r =>
    have hc : c ≠ 36 := by
      intro hc
      exact h (by simp [hc])
    simp [expand_stored_path, hc]

theorem parse_prefix_table_encode (ps : List Bytes) (rest : Bytes)
    (h : ∀ p ∈ ps, p.length ≤ 65535) :
    parse_prefix_table ps.length
      ((ps.map encode_prefix_entry).flatten ++ rest) = .ok (ps, rest) := by
  induction ps generalizing rest with
  | nil => simp [parse_prefix_table]
  | cons p ps ih =>
    have hp : p.length ≤ 65535 := h p (by simp)
    have hps : ∀ q ∈ ps, q.length ≤ 65535 := fun q hq => h q (by simp [hq])
    simp only [List.length_cons, List.map_cons, List.flatten_cons,
      encode_prefix_entry, List.append_assoc]
    simp only [parse_prefix_table]
    rw [readU16_write _ _ hp]
    dsimp only
    rw [readBytesN_exact]
    dsimp only
    rw [ih _ hps]

theorem parse_record_encode (ps : List Bytes) (f : FileEntry) (rest : Bytes)
    (hlen : f.path.length ≤ 4095)
    (hdollar : f.path.head? ≠ some 36)
    (hdup : f.is_duplicate = true → f.duplicate_of.length ≤ 65535)
    (hcont : f.is_duplicate = false → f.content.length ≤ 4294967294) :
    parse_record ps (encode_file_entry f ++ rest) = .ok (to_decoded f, rest) := by
  cases hd : f.is_duplicate with
  | false =>
    have hc := hcont hd
    simp only [encode_file_entry, hd, Bool.false_eq_true, if_false,
      List.append_assoc]
    simp only [parse_record]
    rw [readU16_write _ _ (by omega)]
    dsimp only
    rw [readBytesN_exact]
    dsimp only
    rw [if_neg (by omega), expand_verbatim ps f.path hdollar]
    dsimp only
    rw [readU32_write _ _ (by omega)]
    dsimp only
    rw [if_neg (by omega)]
    rw [readBytesN_exact]
    dsimp only
    simp [to_decoded, hd]
  | true =>
    have hD := hdup hd
    simp only [encode_file_entry, hd, if_true, List.append_assoc]
    simp only [parse_record]
    rw [readU16_write _ _ (by omega)]
    dsimp only
    rw [readBytesN_exact]
    dsimp only
    rw [if_neg (by omega), expand_verbatim ps f.path hdollar]
    dsimp only
    rw [readU32_write _ _ (by omega)]
    dsimp only
    rw [if_pos rfl]
    rw [readU16_write _ _ hD]
    dsimp only
    rw [take_append_exact, drop_append_exact]
    simp [to_decoded, hd]

theorem parse_records_encode (ps : List Bytes) (files : List FileEntry)
    (rest : Bytes)
    (hpath : ∀ f ∈ files, f.path.length ≤ 4095)
    (hdollar : ∀ f ∈ files, f.path.head? ≠ some 36)
    (hdup : ∀ f ∈ files, f.is_duplicate = true → f.duplicate_of.length ≤ 65535)
    (hcont : ∀ f ∈ files,
      f.is_duplicate = false → f.content.length ≤ 4294967294) :
    parse_records ps files.length
      ((files.map encode_file_entry).flatten ++ rest) =
      .ok (files.map to_decoded, rest) := by
  induction files generalizing rest with
  | nil => simp [parse_records]
  | cons f fs ih =>
    simp only [List.length_cons, List.map_cons, List.flatten_cons,
      List.append_assoc]
    simp only [parse_records]
    rw [parse_record_encode ps f _ (hpath f (by simp)) (hdollar f (by simp))
      (hdup f (by simp)) (hcont f (by simp))]
    dsimp only
    rw [ih _ (fun g hg => hpath g (List.mem_cons_of_mem f hg))
      (fun g hg => hdollar g (List.mem_cons_of_mem f hg))
      (fun g hg => hdup g (List.mem_cons_of_mem f hg))
      (fun g hg => hcont g (List.mem_cons_of_mem f hg))]

/-- C3 (amended): for every prefix table and ordered file list within the
encode preconditions - prefix count and prefix lengths in 16 bits, file
count in 32 bits, no two identical paths, non-duplicate content lengths in
32 bits and below the 0xFFFFFFFF sentinel, duplicate-reference lengths in
16 bits - AND, forced by the decoder, every path at most 4095 bytes (the
decoder copies it into a fixed 4096-byte buffer) and no path beginning with
the reference-token marker '$' (byte 36), decoding the bytes produced by
encode returns exactly the same prefixes and file records, path- and
content-equal and in the same order. -/
theorem decode_encode_roundtrip (ps : List Bytes) (files : List FileEntry)
    (hp : ps.length ≤ 65535)
    (hpl : ∀ p ∈ ps, p.length ≤ 65535)
    (hf : files.length ≤ 4294967295)
    (hpath : ∀ f ∈ files, f.path.length ≤ 4095)
    (hdollar : ∀ f ∈ files, f.path.head? ≠ some 36)
    (_hdistinct : files.Pairwise (fun a b => a.path ≠ b.path))
    (hdup : ∀ f ∈ files, f.is_duplicate = true → f.duplicate_of.length ≤ 65535)
    (hcont : ∀ f ∈ files,
      f.is_duplicate = false → f.content.length ≤ 4294967294) :
    decode_container (encode_container ps files) =
      .ok (ps, files.map to_decoded) := by
  simp only [encode_container, decode_container, List.append_assoc]
  rw [readU16_write _ _ hp]
  dsimp only
  rw [parse_prefix_table_encode ps _ hpl]
  dsimp only
  rw [readU32_write _ _ hf]
  dsimp only
  have h := parse_records_encode ps files [] hpath hdollar hdup hcont
  rw [List.append_nil] at h
  rw [h]

/-- Witness for C3 at a concrete archive: one prefix "a/", a regular member
"a/b" with content [7] and a duplicate member "c" referencing "a/b". -/
theorem decode_encode_roundtrip_witness :
    decode_container (encode_container [[97, 47]]
      [⟨[97, 47, 98], [7], false, []⟩, ⟨[99], [], true, [97, 47, 98]⟩]) =
      .ok ([[97, 47]],
        [⟨[97, 47, 98], .content [7]⟩, ⟨[99], .dupRef [97, 47, 98]⟩]) :=
  decode_encode_roundtrip _ _ (by decide) (by decide) (by decide) (by decide)
    (by decide) (by decide) (by decide) (by decide)

/-- C3 counterexample: the claim as stated fails on the code.  The file
record with path "$0$b" (bytes [36,48,36,98]) satisfies every precondition
the claim names - a valid relative path, unique, path length in 16 bits,
content length 0 - yet decoding its encoding does not return the record:
the decoder treats the stored path as a reference token and rewrites it to
"x/b" using the prefix table entry "x/". -/
theorem decode_encode_roundtrip_counterexample :
    decode_container (encode_container [[120, 47]]
      [⟨[36, 48, 36, 98], [], false, []⟩]) ≠
      .ok ([[120, 47]],
        [⟨[36, 48, 36, 98], [], false, []⟩].map to_decoded) ∧
    decode_container (encode_container [[120, 47]]
      [⟨[36, 48, 36, 98], [], false, []⟩]) =
      .ok ([[120, 47]], [⟨[120, 47, 98], .content []⟩]) := by
  constructor
  · decide
  · decide

theorem sel_pass_fst_mem (cur : PrefixEntry) (l : List PrefixEntry) :
    (sel_pass cur l).1 ∈ cur :: l := by
  induction l generalizing cur with
  | nil => simp [sel_pass]
  | cons x xs ih =>
    simp only [sel_pass]
    split
    · have := ih x
      simp only [List.mem_cons] at this ⊢
      tauto
    · have := ih cur
      simp only [List.mem_cons] at this ⊢
      tauto

theorem sel_pass_snd_mem (cur : PrefixEntry) (l : List PrefixEntry) :
    ∀ y ∈ (sel_pass cur l).2, y ∈ cur :: l := by
  induction l generalizing cur with
  | nil => simp [sel_pass]
  | cons x xs ih =>
    intro y hy
    simp only [sel_pass] at hy
    split at hy
    · simp only [List.mem_cons] at hy ⊢
      rcases hy with h | h
      · tauto
      · have := ih x y h
        simp only [List.mem_cons] at this
        tauto
    · simp only [List.mem_cons] at hy ⊢
      rcases hy with h | h
      · tauto
      · have := ih cur y h
        simp only [List.mem_cons] at this
        tauto

theorem sel_pass_fst_max (cur : PrefixEntry) (l : List PrefixEntry) :
    cur.pfx.length ≤ (sel_pass cur l).1.pfx.length ∧
    ∀ y ∈ (sel_pass cur l).2,
      y.pfx.length ≤ (sel_pass cur l).1.pfx.length := by
  induction l generalizing cur with
  | nil => simp [sel_pass]
  | cons x xs ih =>
    simp only [sel_pass]
    split
    · rename_i hlt
      refine ⟨le_trans (le_of_lt hlt) (ih x).1, ?_⟩
      intro y hy
      simp only [List.mem_cons] at hy
      rcases hy with rfl | h
      · exact le_trans (le_of_lt hlt) (ih x).1
      · exact (ih x).2 y h
    · rename_i hge
      refine ⟨(ih cur).1, ?_⟩
      intro y hy
      simp only [List.mem_cons] at hy
      rcases hy with rfl | h
      · exact le_trans (le_of_not_lt hge) (ih cur).1
      · exact (ih cur).2 y h

theorem sel_sort_mem (l : List PrefixEntry) : ∀ y ∈ sel_sort l, y ∈ l := by
  induction l using sel_sort.induct with
  | case1 => simp [sel_sort]
  | case2 x xs ih =>
    intro y hy
    rw [sel_sort] at hy
    simp only [List.mem_cons] at hy
    rcases hy with rfl | h
    · exact sel_pass_fst_mem x xs
    · exact sel_pass_snd_mem x xs y (ih y h)

theorem sel_sort_sorted (l : List PrefixEntry) :
    (sel_sort l).Pairwise (fun a b => b.pfx.length ≤ a.pfx.length) := by
  induction l using sel_sort.induct with
  | case1 => simp [sel_sort]
  | case2 x xs ih =>
    rw [sel_sort]
    refine List.Pairwise.cons ?_ ih
    intro y hy
    exact (sel_pass_fst_max x xs).2 y (sel_sort_mem _ y hy)

/-- C4: for every list of input file paths, the prefix table produced by
`compress_paths` retains only entries with count at least 3, and the
entries appear in non-increasing order of prefix byte length (equal-length
entries in no guaranteed relative order). -/
theorem compress_paths_invariants (paths : List Bytes) :
    (∀ e ∈ compress_paths paths, 3 ≤ e.count) ∧
    (compress_paths paths).Pairwise
      (fun a b => b.pfx.length ≤ a.pfx.length) := by
  unfold compress_paths
  split
  · simp
  · constructor
    · intro e he
      have hmem := sel_sort_mem _ e he
      have hfil := List.mem_filter.mp hmem
      simpa using hfil.2
    · exact sel_sort_sorted _

/-- C1: evidence that decode does NOT validate length fields against the
remaining buffer.  The first conjunct shows the 14-byte container holding
no prefixes and the single member "a" with content [7] is well formed; the
second shows that on the same container truncated to 13 bytes the parsing
loop of `extract_archive` attempts to read past the end of the buffer
(`oob_read` marks the out-of-bounds `fwrite` source range) - the function
has no `CorruptArchive` outcome at all, its only checked error being the
magic-signature test of the outer header. -/
theorem truncated_container_reads_out_of_bounds :
    decode_container (encode_container [] [⟨[97], [7], false, []⟩]) =
      .ok ([], [⟨[97], .content [7]⟩]) ∧
    (encode_container [] [⟨[97], [7], false, []⟩]).length = 14 ∧
    decode_container
      ((encode_container [] [⟨[97], [7], false, []⟩]).take 13) =
      .error .oob_read := by
  refine ⟨by decide, by decide, by decide⟩

/-- C2: the serializer signals no EncodeOverflow: `encode_file_entry` is a
total function (there is no error path anywhere in Phase 3 of
`create_archive`), and for a non-duplicate record whose content length is
exactly 0xFFFFFFFF it writes that length verbatim - the four bytes
[255,255,255,255], which are precisely the duplicate-marker sentinel the
decoder tests for. -/
theorem encode_sentinel_collision (f : FileEntry)
    (hdup : f.is_duplicate = false)
    (hlen : f.content.length = 4294967295) :
    encode_file_entry f =
      write_uint16_be f.path.length ++ f.path ++
        [255, 255, 255, 255] ++ f.content ∧
    write_uint32_be 4294967295 = [255, 255, 255, 255] := by
  constructor
  · simp only [encode_file_entry, hdup, Bool.false_eq_true, if_false, hlen]
    norm_num [write_uint32_be, List.append_assoc]
  · decide

/-- Witness for C2: a record "a" with 0xFFFFFFFF bytes of content. -/
theorem encode_sentinel_collision_witness :
    encode_file_entry ⟨[97], List.replicate 4294967295 0, false, []⟩ =
      write_uint16_be 1 ++ [97] ++ [255, 255, 255, 255] ++
        List.replicate 4294967295 0 ∧
    write_uint32_be 4294967295 = [255, 255, 255, 255] :=
  encode_sentinel_collision ⟨[97], List.replicate 4294967295 0, false, []⟩
    rfl (List.length_replicate 4294967295 0)

/-- C5: the extraction header parser never verifies the stored digest.
When FLAG_CHECKSUMMED is set it merely steps over the 32 digest bytes
(`offset += 32`): the parse succeeds and hands the (possibly corrupted)
payload to the decompressor, and its result is identical for any two
digest values - no recomputation, no comparison, and no IntegrityMismatch
outcome exists in `extract_archive`. -/
theorem digest_never_verified (d1 d2 payload : Bytes) (orig comp : Nat)
    (h1 : d1.length = 32) (h2 : d2.length = 32)
    (ho : orig ≤ 4294967295) (hc : comp ≤ 4294967295) :
    parse_archive_header (mk_archive_file true d1 orig comp payload) =
      .ok (6, orig, comp, payload.take comp) ∧
    parse_archive_header (mk_archive_file true d2 orig comp payload) =
      parse_archive_header (mk_archive_file true d1 orig comp payload) := by
  have key : ∀ d : Bytes, d.length = 32 →
      parse_archive_header (mk_archive_file true d orig comp payload) =
        .ok (6, orig, comp, payload.take comp) := by
    intro d hd
    have htake : (mk_archive_file true d orig comp payload).take 8 =
        KUNDA_MAGIC := by
      have hB : mk_archive_file true d orig comp payload =
          KUNDA_MAGIC ++ ([2, 3, 6] ++ (write_uint32_be orig ++
            (write_uint32_be comp ++ (d ++ payload)))) := by
        simp [mk_archive_file, List.append_assoc]
      rw [hB, show (8 : Nat) = KUNDA_MAGIC.length from rfl, take_append_exact]
    have hdrop : (mk_archive_file true d orig comp payload).drop 10 =
        6 :: (write_uint32_be orig ++
          (write_uint32_be comp ++ (d ++ payload))) := by
      have hB : mk_archive_file true d orig comp payload =
          [75, 85, 78, 68, 65, 0, 0, 0, 2, 3] ++ (6 ::
            (write_uint32_be orig ++
              (write_uint32_be comp ++ (d ++ payload)))) := by
        simp [mk_archive_file, KUNDA_MAGIC]
      rw [hB,
        show (10 : Nat) = ([75, 85, 78, 68, 65, 0, 0, 0, 2, 3] : Bytes).length
          from rfl,
        drop_append_exact]
    simp only [parse_archive_header, htake, if_pos]
    rw [hdrop]
    dsimp only [readU8]
    rw [readU32_write _ _ ho]
    dsimp only
    rw [readU32_write _ _ hc]
    dsimp only
    rw [if_pos (by decide)]
    rw [show (32 : Nat) = d.length from hd.symm, drop_append_exact]
  exact ⟨key d1 h1, by rw [key d1 h1, key d2 h2]⟩

/-- Witness for C5: two different 32-byte digests over the same payload
parse to the identical result. -/
theorem digest_never_verified_witness :
    parse_archive_header
      (mk_archive_file true (List.replicate 32 0) 3 2 [8, 9]) =
      .ok (6, 3, 2, [8, 9].take 2) ∧
    parse_archive_header
      (mk_archive_file true (1 :: List.replicate 31 0) 3 2 [8, 9]) =
      parse_archive_header
        (mk_archive_file true (List.replicate 32 0) 3 2 [8, 9]) :=
  digest_never_verified (List.replicate 32 0) (1 :: List.replicate 31 0)
    [8, 9] 3 2 (by decide) (by decide) (by decide) (by decide)

/-- C6: the reference-token index is dereferenced without a range check.
First conjunct: decoding a container with an EMPTY prefix table and the
stored path "$0$x" makes `extract_archive` read `prefixes[0]` out of the
bounds of the (empty) prefix array - an out-of-bounds access, not a
CorruptArchive failure.  Second conjunct: with a one-entry table ["p/"]
the in-range part of the claim behaves as described - the path expands to
the referenced table entry concatenated with the suffix after the second
'$'. -/
theorem prefix_index_unchecked :
    decode_container
      (encode_container [] [⟨[36, 48, 36, 120], [], false, []⟩]) =
      .error .oob_read ∧
    decode_container
      (encode_container [[112, 47]] [⟨[36, 48, 36, 120], [], false, []⟩]) =
      .ok ([[112, 47]], [⟨[112, 47, 120], .content []⟩]) := by
  refine ⟨by decide, by decide⟩

/-- C7: duplicate records are skipped, not resolved.  Decoding a container
whose second record is a duplicate of the first parses the reference (the
record IS recognized and the referenced path read past), but
`extract_archive` materializes no file for it: the only file written is the
referenced original, and the duplicate member "b" ends up with no content
at all. -/
theorem duplicate_record_skipped :
    decode_container (encode_container []
      [⟨[97], [7], false, []⟩, ⟨[98], [], true, [97]⟩]) =
      .ok ([], [⟨[97], .content [7]⟩, ⟨[98], .dupRef [97]⟩]) ∧
    materialized_files (encode_container []
      [⟨[97], [7], false, []⟩, ⟨[98], [], true, [97]⟩]) =
      .ok [([97], [7])] := by
  refine ⟨by decide, by decide⟩

/-- C8 (amended): every preset string whose first five bytes are not
"ultra" and which is neither "max" nor "balanced" resolves to level 3 with
a 64 MiB dictionary and the standard leveled encoder call, which receives
only `3 | LZMA_PRESET_EXTREME` and hence ignores every explicit parameter
override; the custom filter-chain encoder is used for "ultra" itself and
NOT for "max" or "balanced".  (The original claim - custom encoder only for
"ultra" and "ultra-<N>" - fails: the code tests `strncmp(preset, "ultra",
5)`, see the counterexample.) -/
theorem resolve_preset_default_branch (preset : Bytes)
    (h5 : preset.take 5 ≠ ultraBytes)
    (hm : preset ≠ maxBytes) (hb : preset ≠ balancedBytes) :
    resolve_preset preset =
      ⟨3, 67108864, .easy_encoder (3 ||| 2147483648) 4⟩ ∧
    uses_stream_encoder (resolve_preset ultraBytes) = true ∧
    uses_stream_encoder (resolve_preset maxBytes) = false ∧
    uses_stream_encoder (resolve_preset balancedBytes) = false := by
  have hu : preset ≠ ultraBytes := by
    intro h
    exact h5 (by rw [h]; decide)
  have hud : preset.take 6 ≠ ultraDashBytes := by
    intro h
    apply h5
    have h3 := congrArg (List.take 5) h
    rw [List.take_take] at h3
    have h4 : min 5 6 = 5 := by norm_num
    rw [h4] at h3
    rw [h3]
    decide
  refine ⟨?_, by decide, by decide, by decide⟩
  simp [resolve_preset, hu, hud, hm, hb, h5]

/-- Witness for C8 at the preset "fast". -/
theorem resolve_preset_default_branch_witness :
    resolve_preset [102, 97, 115, 116] =
      ⟨3, 67108864, .easy_encoder (3 ||| 2147483648) 4⟩ ∧
    uses_stream_encoder (resolve_preset ultraBytes) = true ∧
    uses_stream_encoder (resolve_preset maxBytes) = false ∧
    uses_stream_encoder (resolve_preset balancedBytes) = false :=
  resolve_preset_default_branch [102, 97, 115, 116] (by decide) (by decide)
    (by decide)

/-- C8 counterexample: the preset string "ultrax" is neither "ultra" nor of
the form "ultra-<N>" (it does not even begin with "ultra-"), nor "max" nor
"balanced", so by the claim it should use the standard leveled encoder;
but `strncmp(preset, "ultra", 5) == 0` holds for it, so
`compress_lzma_ultra` initializes the custom filter-chain encoder
(`lzma_stream_encoder`) with the explicit option block - while its
level/dictionary resolution still lands in the default branch (level 3,
64 MiB). -/
theorem resolve_preset_claim_counterexample :
    uses_stream_encoder (resolve_preset [117, 108, 116, 114, 97, 120]) =
      true ∧
    [117, 108, 116, 114, 97, 120] ≠ ultraBytes ∧
    List.take 6 [117, 108, 116, 114, 97, 120] ≠ ultraDashBytes ∧
    [117, 108, 116, 114, 97, 120] ≠ maxBytes ∧
    [117, 108, 116, 114, 97, 120] ≠ balancedBytes ∧
    (resolve_preset [117, 108, 116, 114, 97, 120]).preset_level = 3 ∧
    (resolve_preset [117, 108, 116, 114, 97, 120]).dict_size = 67108864 := by
  refine ⟨by decide, by decide, by decide, by decide, by decide, ?_, ?_⟩
  · decide
  · decide
